import Mathlib

/-!
Verification of the task-orchestration and session-management layer of the
`vscode-multi-agent` extension, against its natural-language specification.

The development shallowly embeds the TypeScript sources:
  * `src/executors/TaskManager.ts`  — task registry, lifecycle, cancellation
  * `src/executors/CLIExecutor.ts`  — one-shot process executor
  * `src/executors/GeminiDaemon.ts` and `src/executors/ClaudeDaemon.ts`
    — persistent-session daemons: start, completion-detection loop,
      choice detection, auto-response.

Pure functions become Lean functions over `List Char` / `String`; the
stateful registry becomes an explicit step function over a state record
driven by an event trace; JavaScript regular-expression tests over the
fixed patterns appearing in the sources are translated to equivalent
character-list scanners.
-/

namespace MultiAgent

/-! ## String scanning utilities

`strContains hay needle` is JavaScript `hay.includes(needle)`;
`containsCI` is a case-insensitive regex test `/needle/i.test(hay)` for a
needle containing no metacharacters (lower-casing both sides, which agrees
with the ASCII-only needles used by the sources). -/

def isPrefixL : List Char → List Char → Bool
  | [], _ => true
  | _ :: _, [] => false
  | a :: as, b :: bs => a = b && isPrefixL as bs

def infixAt : List Char → List Char → Bool
  | needle, [] => isPrefixL needle []
  | needle, c :: rest => isPrefixL needle (c :: rest) || infixAt needle rest

def strContains (hay needle : String) : Bool :=
  infixAt needle.data hay.data

def lowerL (l : List Char) : List Char := l.map Char.toLower

def containsCI (hay needle : String) : Bool :=
  infixAt (lowerL needle.data) (lowerL hay.data)

/-! ## Output cleaning (`cleanOutput` of both daemons)

`cleanOutput` strips ANSI CSI escape sequences (`/\x1B\[[0-9;]*[a-zA-Z]/g`),
removes carriage returns (`/\r/g`) and trims surrounding whitespace
(JavaScript `String.prototype.trim`), exactly as `GeminiDaemon.cleanOutput`
(lines 269-274) and `ClaudeDaemon.cleanOutput` (lines 265-270), which are
identical. -/

/-- Given the characters after an `ESC [`, consume `[0-9;]*` and then one
ASCII letter; returns the remainder on a complete match (the regex quantifier
is greedy and the letter class is disjoint from `[0-9;]`, so no backtracking
arises). -/
def afterCSI : List Char → Option (List Char)
  | [] => none
  | c :: rest =>
    if c.isDigit || c = ';' then afterCSI rest
    else if c.isAlpha then some rest
    else none

/-- Remove every occurrence of the ANSI pattern `\x1B\[[0-9;]*[a-zA-Z]`
(global replace with the empty string). When the `ESC [` is not followed by
a complete sequence, both characters are kept and scanning resumes inside
the remainder, which matches the JavaScript scan since a match can only
start at an `ESC` character.  `afterCSI` always returns a strict suffix of
its input, so every recursive call strictly shrinks the character list and
a fuel of `l.length` can never run out. -/
def stripAnsiFuel : Nat → List Char → List Char
  | 0, l => l
  | _ + 1, [] => []
  | fuel + 1, '\x1b' :: '[' :: r2 =>
    match afterCSI r2 with
    | some r3 => stripAnsiFuel fuel r3
    | none => '\x1b' :: '[' :: stripAnsiFuel fuel r2
  | fuel + 1, c :: rest => c :: stripAnsiFuel fuel rest

def stripAnsi (l : List Char) : List Char := stripAnsiFuel l.length l

/-- JavaScript whitespace as relevant to `trim` on the daemon output
(ASCII subset; the sources never produce the exotic Unicode space
characters). -/
def isWsChar (c : Char) : Bool :=
  c = ' ' || c = '\t' || c = '\n' || c = '\r' || c = '\x0b' || c = '\x0c'

def trimL (l : List Char) : List Char :=
  ((l.dropWhile isWsChar).reverse.dropWhile isWsChar).reverse

def removeCR (l : List Char) : List Char := l.filter (fun c => c ≠ '\r')

/-- Embeds `cleanOutput` of both daemons: strip ANSI sequences, drop `\r`, trim. -/
def cleanOutput (s : String) : String :=
  String.mk (trimL (removeCR (stripAnsi s.data)))

/-! ## ChoiceDetector (§4.4): `detectChoice` of each daemon -/

/-- The ephemeral choice value: an ordered list of acceptable response
tokens plus a human-readable description (`PendingChoice` in both daemon
sources). -/
structure PendingChoice where
  options : List String
  prompt : String
deriving DecidableEq, Repr

/-- One line matches the numbered-option regex
`^\s*\[?(\d+)\]?\s*[.):]\s*(.+)$`: optional whitespace, an optional `[`,
one or more digits, an optional `]`, optional whitespace, a separator in
`. ) :`, and at least one further character (the regex's `\s*(.+)$` accepts
any non-empty remainder because `.` also matches whitespace after `\s*`
backtracks). -/
def isNumberedLine (l : List Char) : Bool :=
  let l1 := l.dropWhile isWsChar
  let l2 := match l1 with
    | '[' :: rest => rest
    | _ => l1
  match l2.span Char.isDigit with
  | ([], _) => false
  | (_ :: _, rest) =>
    let r1 := match rest with
      | ']' :: rr => rr
      | _ => rest
    match r1.dropWhile isWsChar with
    | [] => false
    | c :: rest2 => (c = '.' || c = ')' || c = ':') && !rest2.isEmpty

/-- Split on `\n`, as the `m`-flagged anchors `^`/`$` delimit lines. -/
def splitLines (l : List Char) : List (List Char) :=
  match l with
  | [] => [[]]
  | '\n' :: rest => [] :: splitLines rest
  | c :: rest =>
    match splitLines rest with
    | ln :: lns => (c :: ln) :: lns
    | [] => [[c]]

/-- Number of lines matched by `output.match(/^\s*\[?(\d+)\]?\s*[.):]\s*(.+)$/gm)`
(each matching line contributes exactly one match because the pattern is
anchored to the whole line). -/
def numberedCount (s : String) : Nat :=
  (splitLines s.data).countP isNumberedLine

/-- Option tokens `"1" … "N"` produced by
`numberedMatches.map((_, i) => (i + 1).toString())`. -/
def numberedOptions (n : Nat) : List String :=
  (List.range n).map (fun i => toString (i + 1))

namespace GeminiDaemon

/-- Embeds `GeminiDaemon.detectChoice` (GeminiDaemon.ts lines 157-203).  The local
`patterns` array in the source is dead code (never read); the live tests
are translated below.  The three yes/no regexes `/\(y\/n\)/i`,
`/\[y\/N\]/i`, `/\[Y\/n\]/i` are case-insensitive substring tests (the
latter two coincide under the `i` flag). -/
def detectChoice (output : String) : Option PendingChoice :=
  if containsCI output "(y/n)" || containsCI output "[y/N]" || containsCI output "[Y/n]" then
    some { options := ["y", "n"], prompt := "Yes or No?" }
  else if 2 ≤ numberedCount output then
    some { options := numberedOptions (numberedCount output),
           prompt := "Select an option (1-" ++ toString (numberedCount output) ++ ")" }
  else if containsCI output "press enter" || containsCI output "hit enter" then
    some { options := ["enter"], prompt := "Press Enter to continue" }
  else
    none

end GeminiDaemon

namespace ClaudeDaemon

/-- Embeds `ClaudeDaemon.detectChoice` (ClaudeDaemon.ts lines 161-198): yes/no
permission prompts, then allow/deny/permit phrasing combined with a
question mark, then numbered options, then continue prompts. -/
def detectChoice (output : String) : Option PendingChoice :=
  if containsCI output "(y/n)" || containsCI output "[y/N]" || containsCI output "[Y/n]" then
    some { options := ["y", "n"], prompt := "Permission required - Yes or No?" }
  else if (containsCI output "allow" || containsCI output "deny" || containsCI output "permit")
      && output.contains '?' then
    some { options := ["y", "n"], prompt := "Allow this action?" }
  else if 2 ≤ numberedCount output then
    some { options := numberedOptions (numberedCount output),
           prompt := "Select an option (1-" ++ toString (numberedCount output) ++ ")" }
  else if containsCI output "press enter" || containsCI output "continue?" then
    some { options := ["enter"], prompt := "Press Enter to continue" }
  else
    none

end ClaudeDaemon

/-! ## SessionDaemon completion-detection loop (§4.3)

`waitForOutputWithChoiceDetection` of both daemons (GeminiDaemon.ts lines
106-155, ClaudeDaemon.ts lines 108-159) is the same loop up to the choice
detector, the overall timeout, and one detail of the interactive key
replay.  The loop body is embedded as `waitStep`; the bounded `while` as
`waitLoop`, where the list of `Obs` records the reads the loop performs
before the overall timeout elapses (one entry per 500 ms tick), and
`finalRaw` is what the final `tail -c +(beforeSize+1)` read returns at
timeout time.  `Obs.userChoice` is the decision `askUserForChoice` would
resolve with at that tick (`none` when the user dismisses the dialog). -/

inductive InteractionMode
  | auto
  | interactive
deriving DecidableEq, Repr

/-- One poll tick's observation: the `stat -c%s` size, the raw `tail` read,
and the interactive-mode user decision available at this tick. -/
structure Obs where
  size : Nat
  raw : String
  userChoice : Option String
deriving DecidableEq, Repr

/-- The loop-carried locals `stableCount`, `lastSize`, `lastOutput`. -/
structure LoopState where
  stableCount : Nat
  lastSize : Nat
  lastOutput : String
deriving DecidableEq, Repr

/-- Outcome of one iteration of the `while` body: either `return cleanOutput`
(the stability early return) or continue with updated locals, having sent
the given key names via `sendKey`. -/
inductive StepOut
  | done (s : String)
  | next (st : LoopState) (keys : List String)
deriving DecidableEq, Repr

/-- Embeds `autoRespond` — identical bodies in GeminiDaemon.ts (lines 205-217) and
ClaudeDaemon.ts (lines 201-213) — rendered as the list of key names sent:
prefer `y` (followed by `enter`), else a bare `enter` for a continue
prompt, else the first numbered option (followed by `enter`). -/
def autoRespondKeys (c : PendingChoice) : List String :=
  if c.options.contains "y" then ["y", "enter"]
  else if c.options.contains "enter" then ["enter"]
  else
    match c.options with
    | o :: _ => [o, "enter"]
    | [] => []

/-- GeminiDaemon interactive replay (lines 131-132): the chosen key, always
followed by `enter`. -/
def geminiInteractiveKeys (k : String) : List String := [k, "enter"]

/-- ClaudeDaemon interactive replay (lines 133-136): the chosen key,
followed by `enter` unless the chosen key already is `enter`. -/
def claudeInteractiveKeys (k : String) : List String :=
  if k = "enter" then [k] else [k, "enter"]

/-- One iteration of the completion-detection loop, parameterised by the
daemon's choice detector and interactive key replay.  When a choice is
detected and resolved the stability counter resets and the loop continues
(`continue` in the source, skipping the stability check); when a choice is
detected in interactive mode but the user dismisses the dialog, control
falls through to the stability check, exactly as in the source. -/
def waitStep (detect : String → Option PendingChoice) (ikeys : String → List String)
    (mode : InteractionMode) (beforeSize : Nat) (st : LoopState) (o : Obs) : StepOut :=
  let cleanOut := cleanOutput o.raw
  let stability : StepOut :=
    if o.size > beforeSize ∧ o.size = st.lastSize ∧ cleanOut = st.lastOutput then
      if st.stableCount + 1 ≥ 4 then .done cleanOut
      else .next { st with stableCount := st.stableCount + 1 } []
    else .next { stableCount := 0, lastSize := o.size, lastOutput := cleanOut } []
  match detect cleanOut with
  | some c =>
    match mode with
    | .auto => .next { st with stableCount := 0 } (autoRespondKeys c)
    | .interactive =>
      match o.userChoice with
      | some k => .next { st with stableCount := 0 } (ikeys k)
      | none => stability
  | none => stability

/-- Result of the loop: an early stability return, or the timeout fallback
returning the cleaned final read. -/
inductive LoopResult
  | stable (s : String)
  | timeout (s : String)
deriving DecidableEq, Repr

/-- The bounded polling loop: consume ticks until the stability early return
fires; once the ticks before the overall timeout are exhausted, re-read and
return the cleaned text (lines 150-154 / 156-158 of the daemons). -/
def waitLoop (detect : String → Option PendingChoice) (ikeys : String → List String)
    (mode : InteractionMode) (beforeSize : Nat) :
    LoopState → List Obs → String → LoopResult
  | _, [], finalRaw => .timeout (cleanOutput finalRaw)
  | st, o :: rest, finalRaw =>
    match waitStep detect ikeys mode beforeSize st o with
    | .done s => .stable s
    | .next st' _ => waitLoop detect ikeys mode beforeSize st' rest finalRaw

/-- The loop locals' initial values (`stableCount = 0`, `lastSize =
beforeSize`, `lastOutput = ''`). -/
def initLoopState (beforeSize : Nat) : LoopState :=
  { stableCount := 0, lastSize := beforeSize, lastOutput := "" }

/-! ## SessionDaemon.start (both daemons, lines 19-44)

`start` shells out twice: a `tmux list-sessions … | grep …` query and, when
the well-known session name is absent from its output, a
`tmux new-session …` creation.  Each external command either yields a
string/succeeds or raises; the surrounding `try`/`catch` converts any raise
into a `false` return that leaves `isRunning` untouched. -/

/-- Outcomes of the two external commands a `start` call may run. -/
structure StartWorld where
  listResult : Except String String
  createResult : Except String Unit

/-- Embeds `start()` as a function of the external outcomes and the prior
`isRunning` flag, returning (result, `isRunning` afterwards). -/
def daemonStart (sessionName : String) (w : StartWorld) (running0 : Bool) : Bool × Bool :=
  match w.listResult with
  | .error _ => (false, running0)
  | .ok sessions =>
    if strContains sessions sessionName then (true, true)
    else
      match w.createResult with
      | .error _ => (false, running0)
      | .ok _ => (true, true)

/-! ## TaskRegistry (`TaskManager.ts`)

`Task` records are embedded as values; task ids as `Nat` (the source
generates process-lifetime-unique strings from a counter); `Date`
timestamps as `Nat` instants supplied by the events. -/

inductive TaskStatus
  | pending
  | running
  | completed
  | failed
  | cancelled
deriving DecidableEq, Repr

inductive AgentType
  | claude
  | gemini
deriving DecidableEq, Repr

structure Task where
  id : Nat
  agent : AgentType
  prompt : String
  status : TaskStatus
  progress : Nat
  output : String
  createdAt : Nat
  completedAt : Option Nat
  error : Option String
deriving DecidableEq, Repr

/-- Embeds `createTask`'s fresh record (TaskManager.ts lines 36-45). -/
def newTask (id : Nat) (agent : AgentType) (prompt : String) (now : Nat) : Task :=
  { id := id, agent := agent, prompt := prompt, status := .pending, progress := 0,
    output := "", createdAt := now, completedAt := none, error := none }

/-! ### CLIExecutor (`CLIExecutor.ts`)

A one-shot process run is characterised by the stream chunks it emits and
how it terminates.  `execute` re-emits each stdout chunk as an `output`
progress event and each stderr chunk as an `error` progress event while
accumulating both into one buffer; the `close` handler additionally emits a
`complete` event carrying `Exit code: N` and then resolves with the buffer
on exit code 0 or rejects with `Command failed with exit code N\n<buffer>`
otherwise; a spawn `error` rejects with the OS error and emits nothing
more. -/

inductive PKind
  | out
  | err
  | complete
deriving DecidableEq, Repr

structure Chunk where
  kind : Bool  -- true = stdout, false = stderr
  data : String
deriving DecidableEq, Repr

inductive ExitOutcome
  | exit (code : Int)
  | spawnError (msg : String)
deriving DecidableEq, Repr

structure ProcBeh where
  chunks : List Chunk
  outcome : ExitOutcome
deriving DecidableEq, Repr

/-- The accumulated `this.output` buffer: stdout and stderr chunks in
arrival order. -/
def cliBuffer (chunks : List Chunk) : String :=
  chunks.foldl (fun acc c => acc ++ c.data) ""

/-- The progress events `execute` emits, in order (CLIExecutor.ts lines
52-88): one per chunk, then — when the process reaches `close` — one
`complete` event noting the exit code. -/
def cliEvents (b : ProcBeh) : List (PKind × String) :=
  b.chunks.map (fun c => (if c.kind then PKind.out else PKind.err, c.data)) ++
    match b.outcome with
    | .exit code => [(PKind.complete, "Exit code: " ++ toString code)]
    | .spawnError _ => []

/-- How the `execute` promise settles (CLIExecutor.ts lines 72-95). -/
def cliResult (b : ProcBeh) : Except String String :=
  match b.outcome with
  | .exit code =>
    if code = 0 then .ok (cliBuffer b.chunks)
    else .error ("Command failed with exit code " ++ toString code ++ "\n" ++ cliBuffer b.chunks)
  | .spawnError msg => .error msg

/-- The `progress` listener executeTask attaches (TaskManager.ts lines
104-114): every fragment is appended to `task.output`; only `output`-kind
fragments bump `task.progress` by 5, capped at 95. -/
def applyProgressTask (k : PKind) (data : String) (t : Task) : Task :=
  { t with
    output := t.output ++ data,
    progress := if k = PKind.out then min (t.progress + 5) 95 else t.progress }

/-- How the settled `executeTask` call updates its task (TaskManager.ts
lines 121-135): on success the output is overwritten with the full result,
status `completed`, progress 100, completion timestamp; on failure status
`failed`, the error message recorded, completion timestamp (output left as
accumulated). -/
def applyFinish (r : Except String String) (now : Nat) (t : Task) : Task :=
  match r with
  | .ok res =>
    { t with output := res, status := .completed, progress := 100, completedAt := some now }
  | .error msg =>
    { t with status := .failed, error := some msg, completedAt := some now }

/-- The CLI branch of `executeTask` run to completion with no interleaved
calls: mark running, fold the executor's progress events through the
listener, then settle (TaskManager.ts lines 66, 100-145).  Returns the
updated task and the value `executeTask` resolves or rejects with. -/
def executeTaskCLI (t : Task) (b : ProcBeh) (now : Nat) : Task × Except String String :=
  let t1 : Task := { t with status := .running }
  let t2 := (cliEvents b).foldl (fun acc kd => applyProgressTask kd.1 kd.2 acc) t1
  match cliResult b with
  | .ok r =>
    ({ t2 with output := r, status := .completed, progress := 100, completedAt := some now },
      .ok r)
  | .error m =>
    ({ t2 with status := .failed, error := some m, completedAt := some now }, .error m)

/-! ### The registry as an event-driven state machine

To reason about interleavings of `executeTask` and `cancelTask` (claims on
the lifecycle), the registry is embedded as a step function over traces of
the observable micro-events of `TaskManager`:

  * `create`          — a `createTask` call;
  * `execStartCLI`    — an `executeTask` call entering its CLI branch:
    status set to `running`, the `CLIExecutor` tracked in `this.executors`;
  * `execStartDaemon` — an `executeTask` call entering its daemon branch:
    status set to `running`, no executor tracked;
  * `progressEv`      — one progress fragment delivered to the listener;
  * `finish`          — the awaited execution settling: the `try`/`catch`
    update plus the `finally` release of the executor reference;
  * `cancel`          — a `cancelTask` call.

Each task id is dispatched by at most one `executeTask` call (a `Task` is
one dispatch of one prompt, §3 of the spec); the ghost fields `inflight`
and `started` record which settlements are pending and which ids have been
dispatched, and events that could not occur in that discipline leave the
state unchanged. -/

structure TMState where
  tasks : List (Nat × Task)
  executors : List Nat
  inflight : List Nat
  started : List Nat
deriving Repr

def lookupT : List (Nat × Task) → Nat → Option Task
  | [], _ => none
  | (j, t) :: rest, id => if j = id then some t else lookupT rest id

def setTask : List (Nat × Task) → Nat → (Task → Task) → List (Nat × Task)
  | [], _, _ => []
  | (j, t) :: rest, id, f =>
    if j = id then (j, f t) :: rest else (j, t) :: setTask rest id f

inductive Ev
  | create (id : Nat) (agent : AgentType) (prompt : String) (now : Nat)
  | execStartCLI (id : Nat)
  | execStartDaemon (id : Nat)
  | progressEv (id : Nat) (k : PKind) (data : String)
  | finish (id : Nat) (r : Except String String) (now : Nat)
  | cancel (id : Nat) (now : Nat)
deriving Repr

/-- Embeds `cancelTask` (TaskManager.ts lines 160-174): when an executor is
tracked for the id and the task exists, signal the executor, set status
`cancelled` with a completion timestamp, release the executor reference and
answer `true`; otherwise do nothing and answer `false`. -/
def cancelTask (st : TMState) (id : Nat) (now : Nat) : TMState × Bool :=
  if id ∈ st.executors then
    match lookupT st.tasks id with
    | some _ =>
      ({ st with
          tasks := setTask st.tasks id
            (fun t => { t with status := .cancelled, completedAt := some now }),
          executors := st.executors.filter (fun j => j ≠ id) }, true)
    | none => (st, false)
  else (st, false)

def step (st : TMState) (e : Ev) : TMState :=
  match e with
  | .create id agent prompt now =>
    match lookupT st.tasks id with
    | some _ => st
    | none => { st with tasks := st.tasks ++ [(id, newTask id agent prompt now)] }
  | .execStartCLI id =>
    match lookupT st.tasks id with
    | none => st
    | some _ =>
      if id ∈ st.started then st
      else
        { st with
          tasks := setTask st.tasks id (fun t => { t with status := .running }),
          executors := id :: st.executors,
          inflight := id :: st.inflight,
          started := id :: st.started }
  | .execStartDaemon id =>
    match lookupT st.tasks id with
    | none => st
    | some _ =>
      if id ∈ st.started then st
      else
        { st with
          tasks := setTask st.tasks id (fun t => { t with status := .running }),
          inflight := id :: st.inflight,
          started := id :: st.started }
  | .progressEv id k data =>
    if id ∈ st.inflight then
      { st with tasks := setTask st.tasks id (applyProgressTask k data) }
    else st
  | .finish id r now =>
    if id ∈ st.inflight then
      { st with
        tasks := setTask st.tasks id (applyFinish r now),
        executors := st.executors.filter (fun j => j ≠ id),
        inflight := st.inflight.filter (fun j => j ≠ id) }
    else st
  | .cancel id now => (cancelTask st id now).1

def initTM : TMState := { tasks := [], executors := [], inflight := [], started := [] }

def runEvents (tr : List Ev) : TMState := tr.foldl step initTM

def statusOf (st : TMState) (id : Nat) : Option TaskStatus :=
  (lookupT st.tasks id).map Task.status

/-- The task's status after each event of the trace, restricted to the
instants at which the task exists. -/
def statusSeq (st : TMState) (tr : List Ev) (id : Nat) : List TaskStatus :=
  match tr with
  | [] => []
  | e :: rest =>
    let st' := step st e
    (statusOf st' id).toList ++ statusSeq st' rest id

/-- Consecutive pairs of distinct statuses: the actual transitions taken. -/
def changePairs : List TaskStatus → List (TaskStatus × TaskStatus)
  | a :: b :: rest => (if a ≠ b then [(a, b)] else []) ++ changePairs (b :: rest)
  | _ => []

/-- The §4.1 state machine's edges. -/
def allowedPairs : List (TaskStatus × TaskStatus) :=
  [(.pending, .running), (.running, .completed), (.running, .failed), (.running, .cancelled)]

/-- The edges the implementation actually realises: the state machine plus
the late settlement of an execution whose task was already cancelled. -/
def actualPairs : List (TaskStatus × TaskStatus) :=
  allowedPairs ++ [(.cancelled, .completed), (.cancelled, .failed)]

/-! ### Reference semantics of the registry's query operations

In the source, `this.tasks` is a `Map<string, Task>` of object references;
`createTask` returns the very object it stores (line 49), `getTask` returns
`this.tasks.get(taskId)` (line 177) and `getAllTasks` copies the array but
not the `Task` objects (line 181).  To make the sharing observable in a
pure embedding, the JavaScript object store is made explicit: a heap of
`Task` records addressed by `Nat` references, with the registry map sending
ids to references.  Mutating a `Task` object in JavaScript is `writeRef`;
reading a returned handle is `readRef`. -/

structure TMRef where
  heap : List Task
  taskRefs : List (Nat × Nat)

def lookupN : List (Nat × Nat) → Nat → Option Nat
  | [], _ => none
  | (j, r) :: rest, id => if j = id then some r else lookupN rest id

def nthT : List Task → Nat → Option Task
  | [], _ => none
  | t :: _, 0 => some t
  | _ :: rest, n + 1 => nthT rest n

def setNthT : List Task → Nat → Task → List Task
  | [], _, _ => []
  | _ :: rest, 0, t => t :: rest
  | u :: rest, n + 1, t => u :: setNthT rest n t

/-- Embeds `createTask` under reference semantics: allocate the record, store the
reference in the map, and hand the same reference back to the caller. -/
def createTaskRef (st : TMRef) (id : Nat) (agent : AgentType) (prompt : String) (now : Nat) :
    TMRef × Nat :=
  let r := st.heap.length
  ({ heap := st.heap ++ [newTask id agent prompt now],
     taskRefs := st.taskRefs ++ [(id, r)] }, r)

/-- Embeds `getTask` under reference semantics: the stored reference itself. -/
def getTaskRef (st : TMRef) (id : Nat) : Option Nat :=
  lookupN st.taskRefs id

/-- Embeds `getAllTasks` under reference semantics: a fresh array holding the same
references. -/
def getAllTasksRef (st : TMRef) : List Nat :=
  st.taskRefs.map Prod.snd

/-- Dereference a task handle. -/
def readRef (st : TMRef) (r : Nat) : Option Task :=
  nthT st.heap r

/-- Mutate the record a handle points to. -/
def writeRef (st : TMRef) (r : Nat) (t : Task) : TMRef :=
  { st with heap := setNthT st.heap r t }

def initTMRef : TMRef := { heap := [], taskRefs := [] }

/-! ## Formalised claim statements for the claims the code refutes -/

/-- Claim C1 as stated: along every trace of registry events, every status
transition of every task is an edge of the §4.1 state machine (hence no
task ever carries two distinct terminal statuses). -/
def ClaimC1Prop : Prop :=
  ∀ (tr : List Ev) (id : Nat),
    ∀ p ∈ changePairs (statusSeq initTM tr id), p ∈ allowedPairs

/-- Claim C2 as stated: for every task dispatched through a session daemon
and currently `running`, `cancelTask` answers `true` and records status
`cancelled`. -/
def ClaimC2Prop : Prop :=
  ∀ (tr : List Ev) (id now : Nat),
    Ev.execStartDaemon id ∈ tr →
    statusOf (runEvents tr) id = some .running →
    (cancelTask (runEvents tr) id now).2 = true ∧
      statusOf (cancelTask (runEvents tr) id now).1 id = some .cancelled

/-- Claim C3 as stated (instantiated at `createTask`, whose returned value
the claim also covers): mutating the `Task` a registry operation returned
leaves the record stored inside the registry unchanged. -/
def ClaimC3Prop : Prop :=
  ∀ (st : TMRef) (id : Nat) (agent : AgentType) (prompt : String) (now : Nat) (t' : Task)
    (rid : Nat),
    getTaskRef (createTaskRef st id agent prompt now).1 id = some rid →
    readRef (writeRef (createTaskRef st id agent prompt now).1
        (createTaskRef st id agent prompt now).2 t') rid =
      readRef (createTaskRef st id agent prompt now).1 rid

/-! ## Registry lifecycle invariant -/

/-- Invariant tying the tracked-executor and in-flight bookkeeping to one
task's status: a tracked executor's task is `running`; an in-flight
execution's task is `running` or already `cancelled`; a never-dispatched
task is `pending`; bookkeeping only ever refers to existing tasks. -/
def InvAt (st : TMState) (id : Nat) : Prop :=
  (id ∈ st.executors → statusOf st id = some .running)
  ∧ (id ∈ st.inflight →
      statusOf st id = some .running ∨ statusOf st id = some .cancelled)
  ∧ (id ∉ st.started → statusOf st id = none ∨ statusOf st id = some .pending)
  ∧ (statusOf st id = none →
      id ∉ st.executors ∧ id ∉ st.inflight ∧ id ∉ st.started)

/-- One registry event either leaves a task's status alone, creates it as
`pending`, or moves it along an edge of `actualPairs`. -/
def transOK (s s' : Option TaskStatus) : Prop :=
  s' = s ∨ (s = none ∧ s' = some .pending) ∨
    (∃ a b, s = some a ∧ s' = some b ∧ (a, b) ∈ actualPairs)

/-! # Theorems -/

/-! ## Substring lemmas -/

theorem isPrefixL_self_append (n m : List Char) : isPrefixL n (n ++ m) = true := by
  induction n with
  | nil => rfl
  | cons a as ih => simp [isPrefixL, ih]

theorem infixAt_append_left (n a b : List Char) (h : infixAt n b = true) :
    infixAt n (a ++ b) = true := by
  induction a with
  | nil => simpa using h
  | cons c cs ih =>
    simp only [List.cons_append, infixAt, Bool.or_eq_true]
    exact Or.inr ih

theorem infixAt_of_middle (a n b : List Char) : infixAt n (a ++ (n ++ b)) = true := by
  apply infixAt_append_left
  cases hn : n ++ b with
  | nil => simp_all [infixAt, isPrefixL]
  | cons c cs =>
    simp only [infixAt, Bool.or_eq_true]
    exact Or.inl (hn ▸ isPrefixL_self_append n b)

theorem strContains_middle (a n b : String) :
    strContains (a ++ (n ++ b)) n = true := by
  have : (a ++ (n ++ b)).data = a.data ++ (n.data ++ b.data) := by
    simp [String.data_append]
  simp only [strContains, this]
  exact infixAt_of_middle a.data n.data b.data

theorem strContains_left (n b : String) : strContains (n ++ b) n = true := by
  have h := strContains_middle "" n b
  simpa using h

theorem strAppend_assoc (a b c : String) : (a ++ b) ++ c = a ++ (b ++ c) := by
  apply String.ext
  simp [String.data_append, List.append_assoc]

theorem strAppend_empty (s : String) : s ++ "" = s := by
  apply String.ext
  simp [String.data_append]

theorem strContains_right (a n : String) : strContains (a ++ n) n = true := by
  have h := strContains_middle a n ""
  rwa [strAppend_empty n] at h

/-! ## Association-list and heap lemmas -/

theorem lookupT_setTask_self (l : List (Nat × Task)) (id : Nat) (f : Task → Task) :
    lookupT (setTask l id f) id = (lookupT l id).map f := by
  induction l with
  | nil => rfl
  | cons p rest ih =>
    obtain ⟨j, t⟩ := p
    by_cases hj : j = id
    · simp [setTask, lookupT, hj]
    · simp [setTask, lookupT, hj, ih]

theorem lookupT_setTask_ne (l : List (Nat × Task)) (j id : Nat) (f : Task → Task)
    (h : j ≠ id) : lookupT (setTask l j f) id = lookupT l id := by
  induction l with
  | nil => rfl
  | cons p rest ih =>
    obtain ⟨k, t⟩ := p
    by_cases hk : k = j
    · subst hk
      simp [setTask, lookupT, h]
    · simp [setTask, lookupT, hk, ih]

theorem lookupT_append_none (l m : List (Nat × Task)) (id : Nat)
    (h : lookupT l id = none) : lookupT (l ++ m) id = lookupT m id := by
  induction l with
  | nil => rfl
  | cons p rest ih =>
    obtain ⟨j, t⟩ := p
    by_cases hj : j = id
    · simp [lookupT, hj] at h
    · simp only [lookupT, if_neg hj] at h
      rw [List.cons_append]
      simp only [lookupT, if_neg hj]
      exact ih h

theorem lookupT_append_some (l m : List (Nat × Task)) (id : Nat) (t : Task)
    (h : lookupT l id = some t) : lookupT (l ++ m) id = some t := by
  induction l with
  | nil => simp [lookupT] at h
  | cons p rest ih =>
    obtain ⟨j, u⟩ := p
    by_cases hj : j = id
    · simp only [lookupT, if_pos hj, Option.some.injEq] at h
      rw [List.cons_append]
      simp [lookupT, hj, h]
    · simp only [lookupT, if_neg hj] at h
      rw [List.cons_append]
      simp only [lookupT, if_neg hj]
      exact ih h

theorem lookupN_append_fresh (l : List (Nat × Nat)) (id r : Nat)
    (h : lookupN l id = none) : lookupN (l ++ [(id, r)]) id = some r := by
  induction l with
  | nil => simp [lookupN]
  | cons p rest ih =>
    obtain ⟨j, s⟩ := p
    by_cases hj : j = id
    · simp [lookupN, hj] at h
    · simp only [lookupN, hj, if_false] at h
      simp only [List.cons_append, lookupN, if_neg hj]
      exact ih h

theorem nthT_append_length (l : List Task) (t : Task) :
    nthT (l ++ [t]) l.length = some t := by
  induction l with
  | nil => rfl
  | cons u rest ih => simpa [nthT] using ih

theorem nthT_setNthT_self (l : List Task) (r : Nat) (t : Task) (h : r < l.length) :
    nthT (setNthT l r t) r = some t := by
  induction l generalizing r with
  | nil => simp at h
  | cons u rest ih =>
    cases r with
    | zero => rfl
    | succ n =>
      simp only [List.length_cons, Nat.succ_lt_succ_iff] at h
      simpa [setNthT, nthT] using ih n h

/-! ## Completion-detection loop: case lemmas for one iteration -/

theorem waitStep_noChoice_stable_next (detect : String → Option PendingChoice)
    (ikeys : String → List String) (mode : InteractionMode) (bs : Nat)
    (st : LoopState) (o : Obs)
    (hdet : detect (cleanOutput o.raw) = none)
    (h1 : bs < o.size) (h2 : o.size = st.lastSize) (h3 : cleanOutput o.raw = st.lastOutput)
    (h4 : st.stableCount + 1 < 4) :
    waitStep detect ikeys mode bs st o =
      .next { st with stableCount := st.stableCount + 1 } [] := by
  simp only [waitStep, hdet]
  rw [if_pos ⟨h1, h2, h3⟩, if_neg (by omega)]

theorem waitStep_noChoice_stable_done (detect : String → Option PendingChoice)
    (ikeys : String → List String) (mode : InteractionMode) (bs : Nat)
    (st : LoopState) (o : Obs)
    (hdet : detect (cleanOutput o.raw) = none)
    (h1 : bs < o.size) (h2 : o.size = st.lastSize) (h3 : cleanOutput o.raw = st.lastOutput)
    (h4 : 4 ≤ st.stableCount + 1) :
    waitStep detect ikeys mode bs st o = .done (cleanOutput o.raw) := by
  simp only [waitStep, hdet]
  rw [if_pos ⟨h1, h2, h3⟩, if_pos (by omega)]

theorem waitStep_noChoice_reset (detect : String → Option PendingChoice)
    (ikeys : String → List String) (mode : InteractionMode) (bs : Nat)
    (st : LoopState) (o : Obs)
    (hdet : detect (cleanOutput o.raw) = none)
    (hns : ¬(bs < o.size ∧ o.size = st.lastSize ∧ cleanOutput o.raw = st.lastOutput)) :
    waitStep detect ikeys mode bs st o =
      .next { stableCount := 0, lastSize := o.size, lastOutput := cleanOutput o.raw } [] := by
  simp only [waitStep, hdet]
  rw [if_neg hns]

theorem waitStep_choice_auto (detect : String → Option PendingChoice)
    (ikeys : String → List String) (bs : Nat) (st : LoopState) (o : Obs)
    (c : PendingChoice) (hdet : detect (cleanOutput o.raw) = some c) :
    waitStep detect ikeys .auto bs st o =
      .next { st with stableCount := 0 } (autoRespondKeys c) := by
  simp only [waitStep, hdet]

/-! ## Claim C4 — stability counter and early return -/

/-- C4: in the completion-detection loop, a no-choice tick whose size has
grown past the baseline and whose size and cleaned text are unchanged from
the recorded previous observation increments the stability counter
(returning the stabilised cleaned text as soon as the counter reaches 4),
any other no-choice tick resets the counter and records the tick's size and
cleaned text (so on consecutive no-choice ticks the comparison point is
exactly the previous tick), and on a stream that grows once and then stays
identical for four further polls the loop returns exactly the stabilised
cleaned text with ticks to spare before the overall timeout. -/
theorem waitLoop_stability_c4 :
    (∀ (detect : String → Option PendingChoice) (ikeys : String → List String)
        (mode : InteractionMode) (bs : Nat) (st : LoopState) (o : Obs),
        detect (cleanOutput o.raw) = none →
        bs < o.size → o.size = st.lastSize → cleanOutput o.raw = st.lastOutput →
        (st.stableCount + 1 < 4 →
          waitStep detect ikeys mode bs st o =
            .next { st with stableCount := st.stableCount + 1 } []) ∧
        (4 ≤ st.stableCount + 1 →
          waitStep detect ikeys mode bs st o = .done (cleanOutput o.raw)))
    ∧ (∀ (detect : String → Option PendingChoice) (ikeys : String → List String)
        (mode : InteractionMode) (bs : Nat) (st : LoopState) (o : Obs),
        detect (cleanOutput o.raw) = none →
        ¬(bs < o.size ∧ o.size = st.lastSize ∧ cleanOutput o.raw = st.lastOutput) →
        waitStep detect ikeys mode bs st o =
          .next { stableCount := 0, lastSize := o.size, lastOutput := cleanOutput o.raw } [])
    ∧ (∀ (detect : String → Option PendingChoice) (ikeys : String → List String)
        (mode : InteractionMode) (bs : Nat) (o : Obs) (rest : List Obs) (finalRaw : String),
        detect (cleanOutput o.raw) = none → bs < o.size →
        waitLoop detect ikeys mode bs (initLoopState bs)
            (o :: o :: o :: o :: o :: rest) finalRaw =
          .stable (cleanOutput o.raw)) := by
  refine ⟨?_, ?_, ?_⟩
  · intro detect ikeys mode bs st o hdet h1 h2 h3
    exact ⟨waitStep_noChoice_stable_next detect ikeys mode bs st o hdet h1 h2 h3,
      waitStep_noChoice_stable_done detect ikeys mode bs st o hdet h1 h2 h3⟩
  · intro detect ikeys mode bs st o hdet hns
    exact waitStep_noChoice_reset detect ikeys mode bs st o hdet hns
  · intro detect ikeys mode bs o rest finalRaw hdet hgrow
    have hns : ¬(bs < o.size ∧ o.size = (initLoopState bs).lastSize ∧
        cleanOutput o.raw = (initLoopState bs).lastOutput) := by
      simp only [initLoopState]
      rintro ⟨-, h2, -⟩
      omega
    have e0 := waitStep_noChoice_reset detect ikeys mode bs (initLoopState bs) o hdet hns
    have hst : ∀ n : Nat, n + 1 < 4 →
        waitStep detect ikeys mode bs ⟨n, o.size, cleanOutput o.raw⟩ o =
          .next ⟨n + 1, o.size, cleanOutput o.raw⟩ [] := fun n hn =>
      waitStep_noChoice_stable_next detect ikeys mode bs ⟨n, o.size, cleanOutput o.raw⟩ o
        hdet hgrow rfl rfl hn
    have hdone := waitStep_noChoice_stable_done detect ikeys mode bs
      ⟨3, o.size, cleanOutput o.raw⟩ o hdet hgrow rfl rfl (Nat.le_refl 4)
    simp only [waitLoop, e0, hst 0 (by omega), hst 1 (by omega), hst 2 (by omega), hdone]

/-- Witness for C4 at a concrete stream: baseline 0, a tick of size 2 with
raw text `hi`, no choice detected. -/
theorem waitLoop_stability_c4_witness :
    waitLoop GeminiDaemon.detectChoice geminiInteractiveKeys .auto 0 (initLoopState 0)
        [⟨2, "hi", none⟩, ⟨2, "hi", none⟩, ⟨2, "hi", none⟩, ⟨2, "hi", none⟩, ⟨2, "hi", none⟩]
        "hi" = .stable (cleanOutput "hi") :=
  waitLoop_stability_c4.2.2 GeminiDaemon.detectChoice geminiInteractiveKeys .auto 0
    ⟨2, "hi", none⟩ [] "hi" (by decide) (by decide)

/-! ## Claim C5 — timeout degrades to a partial-result return -/

/-- C5: the completion-detection loop never fails: either some tick's
stability check returns early, or the ticks before the overall timeout are
exhausted and the loop returns the cleaned text read from the baseline
offset at timeout time — in particular a fully silent session yields the
(possibly empty) cleaned final read rather than an error. -/
theorem waitLoop_timeout_c5 :
    ∀ (detect : String → Option PendingChoice) (ikeys : String → List String)
      (mode : InteractionMode) (bs : Nat) (st : LoopState) (ticks : List Obs)
      (finalRaw : String),
      (∃ s, waitLoop detect ikeys mode bs st ticks finalRaw = .stable s) ∨
        waitLoop detect ikeys mode bs st ticks finalRaw =
          .timeout (cleanOutput finalRaw) := by
  intro detect ikeys mode bs st ticks finalRaw
  induction ticks generalizing st with
  | nil => exact Or.inr rfl
  | cons o rest ih =>
    cases h : waitStep detect ikeys mode bs st o with
    | done s => exact Or.inl ⟨s, by simp [waitLoop, h]⟩
    | next st' keys =>
      rcases ih st' with ⟨s, hs⟩ | ht
      · exact Or.inl ⟨s, by simp [waitLoop, h, hs]⟩
      · exact Or.inr (by simp [waitLoop, h, ht])

/-! ## Claim C6 — ChoiceDetector purity and classification examples -/

/-- C6: choice classification is a pure function of the input text for both
daemons, text ending in `Proceed? (y/n)` classifies as a yes/no choice with
options `y`,`n`, three numbered-list lines classify as a choice with
options `1`,`2`,`3`, and unrelated prose classifies as no choice. -/
theorem detectChoice_c6 :
    (∀ s t : String, s = t →
        GeminiDaemon.detectChoice s = GeminiDaemon.detectChoice t ∧
        ClaudeDaemon.detectChoice s = ClaudeDaemon.detectChoice t)
    ∧ GeminiDaemon.detectChoice "Proceed? (y/n)" =
        some { options := ["y", "n"], prompt := "Yes or No?" }
    ∧ ClaudeDaemon.detectChoice "Proceed? (y/n)" =
        some { options := ["y", "n"], prompt := "Permission required - Yes or No?" }
    ∧ GeminiDaemon.detectChoice "1) a\n2) b\n3) c" =
        some { options := ["1", "2", "3"], prompt := "Select an option (1-3)" }
    ∧ ClaudeDaemon.detectChoice "1) a\n2) b\n3) c" =
        some { options := ["1", "2", "3"], prompt := "Select an option (1-3)" }
    ∧ GeminiDaemon.detectChoice "The weather is nice today." = none
    ∧ ClaudeDaemon.detectChoice "The weather is nice today." = none := by
  refine ⟨fun s t h => ?_, by decide, by decide, by decide, by decide, by decide, by decide⟩
  subst h
  exact ⟨rfl, rfl⟩

/-- Witness for C6's purity clause at a concrete input. -/
theorem detectChoice_c6_witness :
    GeminiDaemon.detectChoice "Proceed? (y/n)" = GeminiDaemon.detectChoice "Proceed? (y/n)" ∧
    ClaudeDaemon.detectChoice "Proceed? (y/n)" = ClaudeDaemon.detectChoice "Proceed? (y/n)" :=
  detectChoice_c6.1 "Proceed? (y/n)" "Proceed? (y/n)" rfl

/-! ## Claim C9 — auto-response preference order -/

/-- C9: on every detected choice in auto mode the loop sends exactly
`autoRespondKeys`, which prefers `y` followed by `enter`, else a bare
`enter` for a continue prompt, else the first numbered option followed by
`enter`. -/
theorem autoRespond_c9 :
    (∀ c : PendingChoice, "y" ∈ c.options → autoRespondKeys c = ["y", "enter"])
    ∧ (∀ c : PendingChoice, "y" ∉ c.options → "enter" ∈ c.options →
        autoRespondKeys c = ["enter"])
    ∧ (∀ (c : PendingChoice) (o : String) (rest : List String),
        "y" ∉ c.options → "enter" ∉ c.options →
        c.options = o :: rest → autoRespondKeys c = [o, "enter"])
    ∧ (∀ (detect : String → Option PendingChoice) (ikeys : String → List String)
        (bs : Nat) (st : LoopState) (o : Obs) (c : PendingChoice),
        detect (cleanOutput o.raw) = some c →
        waitStep detect ikeys .auto bs st o =
          .next { st with stableCount := 0 } (autoRespondKeys c)) := by
  refine ⟨?_, ?_, ?_, ?_⟩
  · intro c h
    simp [autoRespondKeys, h]
  · intro c h1 h2
    simp [autoRespondKeys, h1, h2]
  · intro c o rest h1 h2 h3
    rw [h3] at h1 h2
    simp only [List.mem_cons] at h1 h2
    simp [autoRespondKeys, h3, h1, h2]
  · intro detect ikeys bs st o c hdet
    exact waitStep_choice_auto detect ikeys bs st o c hdet

/-- Witness for C9 at concrete choices: a yes/no choice, a continue
prompt, a numbered list, and a detected choice inside the loop. -/
theorem autoRespond_c9_witness :
    autoRespondKeys { options := ["y", "n"], prompt := "p" } = ["y", "enter"] ∧
    autoRespondKeys { options := ["enter"], prompt := "p" } = ["enter"] ∧
    autoRespondKeys { options := ["1", "2"], prompt := "p" } = ["1", "enter"] ∧
    waitStep (fun _ => some { options := ["y", "n"], prompt := "q" }) geminiInteractiveKeys
        .auto 0 (initLoopState 0) ⟨0, "", none⟩ =
      .next { initLoopState 0 with stableCount := 0 }
        (autoRespondKeys { options := ["y", "n"], prompt := "q" }) :=
  ⟨autoRespond_c9.1 _ (by simp),
   autoRespond_c9.2.1 _ (by simp) (by simp),
   autoRespond_c9.2.2.1 _ "1" ["2"] (by simp) (by simp) rfl,
   autoRespond_c9.2.2.2 _ geminiInteractiveKeys 0 (initLoopState 0) ⟨0, "", none⟩ _ rfl⟩

/-! ## Claim C10 — `start()` never raises -/

/-- C10: `start()` is total on every outcome of the session-listing query
and the session creation: it answers `true` with the running flag set when
the session already exists or was created, and `false` with the running
flag left unchanged (hence still `false` for a daemon that was not running)
when either external command raised. -/
theorem daemonStart_c10 :
    ∀ (name : String) (w : StartWorld) (r0 : Bool),
      (daemonStart name w r0 = (true, true) ∨ daemonStart name w r0 = (false, r0))
      ∧ (∀ e, w.listResult = .error e → daemonStart name w r0 = (false, r0))
      ∧ (∀ s, w.listResult = .ok s → strContains s name = true →
          daemonStart name w r0 = (true, true))
      ∧ (∀ s, w.listResult = .ok s → strContains s name = false →
          w.createResult = .ok () → daemonStart name w r0 = (true, true))
      ∧ (∀ s e, w.listResult = .ok s → strContains s name = false →
          w.createResult = .error e → daemonStart name w r0 = (false, r0)) := by
  intro name w r0
  obtain ⟨lr, cr⟩ := w
  refine ⟨?_, ?_, ?_, ?_, ?_⟩
  · cases lr with
    | error e => exact Or.inr rfl
    | ok s =>
      by_cases hc : strContains s name = true
      · exact Or.inl (by simp [daemonStart, hc])
      · cases cr with
        | ok u => exact Or.inl (by simp [daemonStart, hc])
        | error e => exact Or.inr (by simp [daemonStart, hc])
  · intro e he
    simp only at he
    subst he
    rfl
  · intro s hs hc
    simp only at hs
    subst hs
    simp [daemonStart, hc]
  · intro s hs hc hcr
    simp only at hs hcr
    subst hs
    subst hcr
    simp [daemonStart, hc]
  · intro s e hs hc hcr
    simp only at hs hcr
    subst hs
    subst hcr
    simp [daemonStart, hc]

/-- Witness for C10: a listing failure leaves a non-running daemon not
running and answers `false`; a listing that shows the session answers
`true`. -/
theorem daemonStart_c10_witness :
    daemonStart "claude-daemon" ⟨.error "wsl failed", .ok ()⟩ false = (false, false) ∧
    daemonStart "claude-daemon" ⟨.ok "claude-daemon: 1 windows", .ok ()⟩ false = (true, true) :=
  ⟨(daemonStart_c10 "claude-daemon" ⟨.error "wsl failed", .ok ()⟩ false).2.1 "wsl failed" rfl,
   (daemonStart_c10 "claude-daemon" ⟨.ok "claude-daemon: 1 windows", .ok ()⟩ false).2.2.1
     "claude-daemon: 1 windows" rfl (by decide)⟩

/-! ## Claim C7 — successful one-shot execution -/

/-- C7: executing a freshly created task against a process that emits `hi`
on stdout and exits with code 0 ends the task `completed` with progress
exactly 100, output `hi` and a completion timestamp set, and the call
resolves with the full accumulated text `hi`. -/
theorem executeTaskCLI_success_c7 :
    ∀ (id : Nat) (prompt : String) (createdAt now : Nat),
      executeTaskCLI (newTask id .claude prompt createdAt)
          { chunks := [{ kind := true, data := "hi" }], outcome := .exit 0 } now =
        ({ id := id, agent := .claude, prompt := prompt, status := .completed,
           progress := 100, output := "hi", createdAt := createdAt,
           completedAt := some now, error := none }, .ok "hi") := by
  intro id prompt createdAt now
  rfl

/-! ## Claim C8 — non-zero exit preserves partial output -/

/-- C8: when the process emits `text` and exits with non-zero code `code`,
`execute` rejects with a message carrying the exit code and the full
accumulated buffer, the task ends `failed` with that message as its error
and a completion timestamp, and the task's accumulated output still
contains the emitted text. -/
theorem executeTaskCLI_failure_c8 :
    ∀ (code : Int) (text : String) (id : Nat) (agent : AgentType) (prompt : String)
      (createdAt now : Nat),
      code ≠ 0 →
      (executeTaskCLI (newTask id agent prompt createdAt)
          { chunks := [{ kind := true, data := text }], outcome := .exit code } now).1.status
        = .failed
      ∧ (executeTaskCLI (newTask id agent prompt createdAt)
          { chunks := [{ kind := true, data := text }], outcome := .exit code } now).1.completedAt
        = some now
      ∧ strContains (executeTaskCLI (newTask id agent prompt createdAt)
          { chunks := [{ kind := true, data := text }], outcome := .exit code } now).1.output
          text = true
      ∧ (executeTaskCLI (newTask id agent prompt createdAt)
          { chunks := [{ kind := true, data := text }], outcome := .exit code } now).1.error
        = some ("Command failed with exit code " ++ toString code ++ "\n" ++ text)
      ∧ (executeTaskCLI (newTask id agent prompt createdAt)
          { chunks := [{ kind := true, data := text }], outcome := .exit code } now).2
        = .error ("Command failed with exit code " ++ toString code ++ "\n" ++ text)
      ∧ strContains ("Command failed with exit code " ++ toString code ++ "\n" ++ text)
          ("exit code " ++ toString code) = true
      ∧ strContains ("Command failed with exit code " ++ toString code ++ "\n" ++ text)
          text = true := by
  intro code text id agent prompt createdAt now hcode
  have hbuf : cliBuffer [{ kind := true, data := text }] = text := rfl
  have hres : cliResult { chunks := [{ kind := true, data := text }], outcome := .exit code }
      = .error ("Command failed with exit code " ++ toString code ++ "\n" ++ text) := by
    simp only [cliResult, hbuf]
    rw [if_neg hcode]
  have hexec : executeTaskCLI (newTask id agent prompt createdAt)
      { chunks := [{ kind := true, data := text }], outcome := .exit code } now =
      ({ id := id, agent := agent, prompt := prompt, status := .failed,
         progress := min 5 95,
         output := text ++ ("Exit code: " ++ toString code),
         createdAt := createdAt, completedAt := some now,
         error := some ("Command failed with exit code " ++ toString code ++ "\n" ++ text) },
        .error ("Command failed with exit code " ++ toString code ++ "\n" ++ text)) := by
    simp only [executeTaskCLI, hres, cliEvents, List.map, List.foldl, applyProgressTask,
      newTask]
    rfl
  refine ⟨by rw [hexec], by rw [hexec], ?_, by rw [hexec], by rw [hexec], ?_, ?_⟩
  · rw [hexec]
    exact strContains_left text ("Exit code: " ++ toString code)
  · have hsplit : "Command failed with exit code " ++ toString code ++ "\n" ++ text =
        "Command failed with " ++ (("exit code " ++ toString code) ++ ("\n" ++ text)) := by
      rw [show ("Command failed with exit code " : String) =
          "Command failed with " ++ "exit code " from rfl]
      rw [strAppend_assoc, strAppend_assoc, strAppend_assoc, strAppend_assoc]
    rw [hsplit]
    exact strContains_middle "Command failed with " ("exit code " ++ toString code) ("\n" ++ text)
  · have hsplit : "Command failed with exit code " ++ toString code ++ "\n" ++ text =
        ("Command failed with exit code " ++ toString code ++ "\n") ++ text := by
      rw [strAppend_assoc]
    rw [hsplit]
    exact strContains_right ("Command failed with exit code " ++ toString code ++ "\n") text

/-- Witness for C8: exit code 2 with buffered text `boom`. -/
theorem executeTaskCLI_failure_c8_witness :
    (executeTaskCLI (newTask 1 .claude "hello" 0)
        { chunks := [{ kind := true, data := "boom" }], outcome := .exit 2 } 7).1.status
      = .failed
    ∧ strContains (executeTaskCLI (newTask 1 .claude "hello" 0)
        { chunks := [{ kind := true, data := "boom" }], outcome := .exit 2 } 7).1.output
        "boom" = true
    ∧ strContains ("Command failed with exit code " ++ toString (2 : Int) ++ "\n" ++ "boom")
        ("exit code " ++ toString (2 : Int)) = true :=
  have h := executeTaskCLI_failure_c8 2 "boom" 1 .claude "hello" 0 7 (by decide)
  ⟨h.1, h.2.2.1, h.2.2.2.2.2.1⟩

/-! ## Claim C3 — query results alias the stored records -/

/-- C3 as stated is false: mutating the `Task` handle `createTask` returns
changes the record the registry itself stores.  Concretely, after creating
task 1 the registry's stored record for id 1 reads back as whatever was
last written through the returned handle, not the created record. -/
theorem registry_alias_c3_counterexample : ¬ClaimC3Prop := by
  intro h
  exact absurd (h initTMRef 1 .claude "p" 0 (newTask 2 .gemini "q" 5) 0 rfl) (by decide)

/-- C3 amended: the registry's operations return aliases, not snapshots:
for a fresh id, `createTask` stores exactly the reference it returns (so
`getTask` yields the same reference), that reference initially reads back
as the created record, and a mutation written through any valid reference
is visible in the registry state. -/
theorem registry_alias_c3 :
    (∀ (st : TMRef) (id : Nat) (agent : AgentType) (prompt : String) (now : Nat),
        lookupN st.taskRefs id = none →
        getTaskRef (createTaskRef st id agent prompt now).1 id =
          some (createTaskRef st id agent prompt now).2
        ∧ readRef (createTaskRef st id agent prompt now).1
            (createTaskRef st id agent prompt now).2 = some (newTask id agent prompt now))
    ∧ (∀ (st : TMRef) (r : Nat) (t' : Task), r < st.heap.length →
        readRef (writeRef st r t') r = some t') := by
  constructor
  · intro st id agent prompt now h
    constructor
    · exact lookupN_append_fresh st.taskRefs id st.heap.length h
    · exact nthT_append_length st.heap (newTask id agent prompt now)
  · intro st r t' h
    exact nthT_setNthT_self st.heap r t' h

/-- Witness for C3's amended statement at the empty registry. -/
theorem registry_alias_c3_witness :
    (getTaskRef (createTaskRef initTMRef 1 .claude "p" 0).1 1 =
        some (createTaskRef initTMRef 1 .claude "p" 0).2
      ∧ readRef (createTaskRef initTMRef 1 .claude "p" 0).1
          (createTaskRef initTMRef 1 .claude "p" 0).2 = some (newTask 1 .claude "p" 0))
    ∧ readRef (writeRef (createTaskRef initTMRef 1 .claude "p" 0).1 0 (newTask 2 .gemini "q" 5))
        0 = some (newTask 2 .gemini "q" 5) :=
  ⟨registry_alias_c3.1 initTMRef 1 .claude "p" 0 rfl,
   registry_alias_c3.2 (createTaskRef initTMRef 1 .claude "p" 0).1 0 (newTask 2 .gemini "q" 5)
     (by decide)⟩

/-! ## Claim C2 — cancelling a daemon-backed task -/

/-- C2 as stated is false: a task dispatched through a session daemon never
has an executor tracked for it, so `cancelTask` on a running daemon-backed
task answers `false` and leaves the status `running`. -/
theorem cancelDaemon_c2_counterexample : ¬ClaimC2Prop := by
  intro h
  have hmem : Ev.execStartDaemon 1 ∈
      [Ev.create 1 .gemini "p" 0, Ev.execStartDaemon 1] := by simp
  have hrun : statusOf (runEvents [Ev.create 1 .gemini "p" 0, Ev.execStartDaemon 1]) 1 =
      some .running := rfl
  exact absurd (h [Ev.create 1 .gemini "p" 0, Ev.execStartDaemon 1] 1 5 hmem hrun).1
    (by decide)

/-- C2 amended: `cancelTask` on a task with no tracked executor is a no-op
answering `false`, and dispatching through a session daemon never tracks an
executor, so for daemon-backed tasks `cancelTask` neither cancels nor
reports success (the daemon itself is equally untouched). -/
theorem cancelDaemon_c2_amended :
    (∀ (st : TMState) (id now : Nat), id ∉ st.executors → cancelTask st id now = (st, false))
    ∧ (∀ (st : TMState) (id : Nat),
        (step st (.execStartDaemon id)).executors = st.executors) := by
  constructor
  · intro st id now h
    simp only [cancelTask, if_neg h]
  · intro st id
    cases hl : lookupT st.tasks id with
    | none => simp [step, hl]
    | some t =>
      by_cases hs : id ∈ st.started
      · simp [step, hl, hs]
      · simp [step, hl, hs]

/-- Witness for C2's amended statement: cancelling the daemon-dispatched
running task 1 is a no-op answering `false`. -/
theorem cancelDaemon_c2_amended_witness :
    cancelTask (runEvents [Ev.create 1 .gemini "p" 0, Ev.execStartDaemon 1]) 1 5 =
      (runEvents [Ev.create 1 .gemini "p" 0, Ev.execStartDaemon 1], false)
    ∧ (step initTM (.execStartDaemon 1)).executors = initTM.executors :=
  ⟨cancelDaemon_c2_amended.1 (runEvents [Ev.create 1 .gemini "p" 0, Ev.execStartDaemon 1]) 1 5
     (by decide),
   cancelDaemon_c2_amended.2 initTM 1⟩

/-! ## Claim C1 — the lifecycle state machine -/

theorem status_applyFinish (r : Except String String) (now : Nat) (t : Task) :
    (applyFinish r now t).status = .completed ∨ (applyFinish r now t).status = .failed := by
  cases r with
  | ok res => exact Or.inl rfl
  | error m => exact Or.inr rfl

/-- Every single registry event either keeps a task's status, creates the
task as `pending`, or moves the status along an edge of `actualPairs`. -/
theorem step_trans (st : TMState) (e : Ev) (id : Nat) (hInv : InvAt st id) :
    transOK (statusOf st id) (statusOf (step st e) id) := by
  obtain ⟨hx, hifl, hstd, hnone⟩ := hInv
  cases e with
  | create id' agent prompt now =>
    cases hl : lookupT st.tasks id' with
    | some t => exact Or.inl (by simp [step, hl])
    | none =>
      by_cases hid : id = id'
      · subst hid
        refine Or.inr (Or.inl ⟨by simp [statusOf, hl], ?_⟩)
        simp [statusOf, step, hl, lookupT_append_none _ _ _ hl, lookupT, newTask]
      · refine Or.inl ?_
        simp only [statusOf, step, hl]
        cases hl2 : lookupT st.tasks id with
        | some t => rw [lookupT_append_some _ _ _ _ hl2]
        | none =>
          rw [lookupT_append_none _ _ _ hl2]
          simp only [lookupT]
          rw [if_neg (fun hh : id' = id => hid hh.symm)]
  | execStartCLI id' =>
    cases hl : lookupT st.tasks id' with
    | none => exact Or.inl (by simp [step, hl])
    | some t =>
      by_cases hs : id' ∈ st.started
      · exact Or.inl (by simp [step, hl, hs])
      · by_cases hid : id = id'
        · subst hid
          have hpend : statusOf st id = some .pending := by
            rcases hstd hs with h3 | h3
            · exfalso
              simp [statusOf, hl] at h3
            · exact h3
          refine Or.inr (Or.inr ⟨.pending, .running, hpend, ?_, by simp [actualPairs, allowedPairs]⟩)
          simp only [step, hl, if_neg hs, statusOf]
          rw [lookupT_setTask_self, hl]
          rfl
        · refine Or.inl ?_
          simp only [step, hl, if_neg hs, statusOf]
          rw [lookupT_setTask_ne _ _ _ _ (fun hh : id' = id => hid hh.symm)]
  | execStartDaemon id' =>
    cases hl : lookupT st.tasks id' with
    | none => exact Or.inl (by simp [step, hl])
    | some t =>
      by_cases hs : id' ∈ st.started
      · exact Or.inl (by simp [step, hl, hs])
      · by_cases hid : id = id'
        · subst hid
          have hpend : statusOf st id = some .pending := by
            rcases hstd hs with h3 | h3
            · exfalso
              simp [statusOf, hl] at h3
            · exact h3
          refine Or.inr (Or.inr ⟨.pending, .running, hpend, ?_, by simp [actualPairs, allowedPairs]⟩)
          simp only [step, hl, if_neg hs, statusOf]
          rw [lookupT_setTask_self, hl]
          rfl
        · refine Or.inl ?_
          simp only [step, hl, if_neg hs, statusOf]
          rw [lookupT_setTask_ne _ _ _ _ (fun hh : id' = id => hid hh.symm)]
  | progressEv id' k data =>
    by_cases hin : id' ∈ st.inflight
    · by_cases hid : id = id'
      · subst hid
        refine Or.inl ?_
        simp only [step, if_pos hin, statusOf]
        rw [lookupT_setTask_self]
        cases lookupT st.tasks id with
        | none => rfl
        | some t => simp [applyProgressTask]
      · refine Or.inl ?_
        simp only [step, if_pos hin, statusOf]
        rw [lookupT_setTask_ne _ _ _ _ (fun hh : id' = id => hid hh.symm)]
    · exact Or.inl (by simp [step, hin])
  | finish id' r now =>
    by_cases hin : id' ∈ st.inflight
    · by_cases hid : id = id'
      · subst hid
        have h2 := hifl hin
        have hpost : statusOf (step st (.finish id r now)) id =
            some (applyFinish r now (newTask 0 .claude "" 0)).status := by
          simp only [step, if_pos hin, statusOf]
          rw [lookupT_setTask_self]
          rcases h2 with h2 | h2 <;>
          · rcases Option.map_eq_some'.1 h2 with ⟨t, ht, _⟩
            rw [ht]
            cases r with
            | ok res => rfl
            | error m => rfl
        rcases h2 with h2 | h2 <;>
          rcases status_applyFinish r now (newTask 0 .claude "" 0) with hfin | hfin <;>
          · refine Or.inr (Or.inr ⟨_, _, h2, by rw [hpost, hfin], ?_⟩)
            simp [hfin, actualPairs, allowedPairs]
      · refine Or.inl ?_
        simp only [step, if_pos hin, statusOf]
        rw [lookupT_setTask_ne _ _ _ _ (fun hh : id' = id => hid hh.symm)]
    · exact Or.inl (by simp [step, hin])
  | cancel id' now =>
    by_cases hex : id' ∈ st.executors
    · cases hl : lookupT st.tasks id' with
      | none => exact Or.inl (by simp [step, cancelTask, hex, hl])
      | some t =>
        by_cases hid : id = id'
        · subst hid
          have hrun := hx hex
          refine Or.inr (Or.inr ⟨.running, .cancelled, hrun, ?_, by simp [actualPairs, allowedPairs]⟩)
          simp only [step, cancelTask, if_pos hex, hl, statusOf]
          rw [lookupT_setTask_self, hl]
          rfl
        · refine Or.inl ?_
          simp only [step, cancelTask, if_pos hex, hl, statusOf]
          rw [lookupT_setTask_ne _ _ _ _ (fun hh : id' = id => hid hh.symm)]
    · exact Or.inl (by simp [step, cancelTask, hex])

theorem invAt_congr (st st' : TMState) (id : Nat) (h : st' = st) (hInv : InvAt st id) :
    InvAt st' id := h ▸ hInv

theorem invAt_of_equiv (st st' : TMState) (id : Nat)
    (he : id ∈ st'.executors ↔ id ∈ st.executors)
    (hi : id ∈ st'.inflight ↔ id ∈ st.inflight)
    (hs : id ∈ st'.started ↔ id ∈ st.started)
    (hst : statusOf st' id = statusOf st id)
    (hInv : InvAt st id) : InvAt st' id := by
  obtain ⟨hx, hifl, hstd, hnone⟩ := hInv
  refine ⟨?_, ?_, ?_, ?_⟩
  · intro hmem
    rw [hst]
    exact hx (he.1 hmem)
  · intro hmem
    rw [hst]
    exact hifl (hi.1 hmem)
  · intro hmem
    rw [hst]
    exact hstd (fun hm2 => hmem (hs.2 hm2))
  · intro hc
    rw [hst] at hc
    obtain ⟨a, b, c⟩ := hnone hc
    exact ⟨fun hm => a (he.1 hm), fun hm => b (hi.1 hm), fun hm => c (hs.1 hm)⟩

/-- Each registry event preserves the lifecycle invariant. -/
theorem stepInvAt (st : TMState) (e : Ev) (id : Nat) (hInv : InvAt st id) :
    InvAt (step st e) id := by
  obtain ⟨hx, hifl, hstd, hnone⟩ := hInv
  cases e with
  | create id' agent prompt now =>
    cases hl : lookupT st.tasks id' with
    | some t => exact invAt_congr _ _ _ (by simp [step, hl]) ⟨hx, hifl, hstd, hnone⟩
    | none =>
      by_cases hid : id = id'
      · subst hid
        have hsn : statusOf st id = none := by simp [statusOf, hl]
        obtain ⟨hnx, hni, hns⟩ := hnone hsn
        have hs' : statusOf (step st (.create id agent prompt now)) id = some .pending := by
          simp [statusOf, step, hl, lookupT_append_none _ _ _ hl, lookupT, newTask]
        have hlists : (step st (.create id agent prompt now)).executors = st.executors ∧
            (step st (.create id agent prompt now)).inflight = st.inflight ∧
            (step st (.create id agent prompt now)).started = st.started := by
          simp [step, hl]
        refine ⟨?_, ?_, ?_, ?_⟩
        · intro hmem
          rw [hlists.1] at hmem
          exact absurd hmem hnx
        · intro hmem
          rw [hlists.2.1] at hmem
          exact absurd hmem hni
        · intro _
          exact Or.inr hs'
        · intro hc
          rw [hs'] at hc
          cases hc
      · refine invAt_of_equiv st _ id (by simp [step, hl]) (by simp [step, hl])
          (by simp [step, hl]) ?_ ⟨hx, hifl, hstd, hnone⟩
        simp only [statusOf, step, hl]
        cases hl2 : lookupT st.tasks id with
        | some t => rw [lookupT_append_some _ _ _ _ hl2]
        | none =>
          rw [lookupT_append_none _ _ _ hl2]
          simp only [lookupT]
          rw [if_neg (fun hh : id' = id => hid hh.symm)]
  | execStartCLI id' =>
    cases hl : lookupT st.tasks id' with
    | none => exact invAt_congr _ _ _ (by simp [step, hl]) ⟨hx, hifl, hstd, hnone⟩
    | some t =>
      by_cases hs : id' ∈ st.started
      · exact invAt_congr _ _ _ (by simp [step, hl, hs]) ⟨hx, hifl, hstd, hnone⟩
      · by_cases hid : id = id'
        · subst hid
          have hrun' : statusOf (step st (.execStartCLI id)) id = some .running := by
            simp only [step, hl, if_neg hs, statusOf]
            rw [lookupT_setTask_self, hl]
            rfl
          have hstarted' : id ∈ (step st (.execStartCLI id)).started := by
            simp [step, hl, hs]
          refine ⟨fun _ => hrun', fun _ => Or.inl hrun', ?_, ?_⟩
          · intro hmem
            exact absurd hstarted' hmem
          · intro hc
            rw [hrun'] at hc
            cases hc
        · refine invAt_of_equiv st _ id ?_ ?_ ?_ ?_ ⟨hx, hifl, hstd, hnone⟩
          · simp [step, hl, hs, List.mem_cons, hid]
          · simp [step, hl, hs, List.mem_cons, hid]
          · simp [step, hl, hs, List.mem_cons, hid]
          · simp only [step, hl, if_neg hs, statusOf]
            rw [lookupT_setTask_ne _ _ _ _ (fun hh : id' = id => hid hh.symm)]
  | execStartDaemon id' =>
    cases hl : lookupT st.tasks id' with
    | none => exact invAt_congr _ _ _ (by simp [step, hl]) ⟨hx, hifl, hstd, hnone⟩
    | some t =>
      by_cases hs : id' ∈ st.started
      · exact invAt_congr _ _ _ (by simp [step, hl, hs]) ⟨hx, hifl, hstd, hnone⟩
      · by_cases hid : id = id'
        · subst hid
          have hrun' : statusOf (step st (.execStartDaemon id)) id = some .running := by
            simp only [step, hl, if_neg hs, statusOf]
            rw [lookupT_setTask_self, hl]
            rfl
          have hstarted' : id ∈ (step st (.execStartDaemon id)).started := by
            simp [step, hl, hs]
          refine ⟨fun _ => hrun', fun _ => Or.inl hrun', ?_, ?_⟩
          · intro hmem
            exact absurd hstarted' hmem
          · intro hc
            rw [hrun'] at hc
            cases hc
        · refine invAt_of_equiv st _ id ?_ ?_ ?_ ?_ ⟨hx, hifl, hstd, hnone⟩
          · simp [step, hl, hs]
          · simp [step, hl, hs, List.mem_cons, hid]
          · simp [step, hl, hs, List.mem_cons, hid]
          · simp only [step, hl, if_neg hs, statusOf]
            rw [lookupT_setTask_ne _ _ _ _ (fun hh : id' = id => hid hh.symm)]
  | progressEv id' k data =>
    by_cases hin : id' ∈ st.inflight
    · refine invAt_of_equiv st _ id (by simp [step, hin]) (by simp [step, hin])
        (by simp [step, hin]) ?_ ⟨hx, hifl, hstd, hnone⟩
      by_cases hid : id = id'
      · subst hid
        simp only [step, if_pos hin, statusOf]
        rw [lookupT_setTask_self]
        cases lookupT st.tasks id with
        | none => rfl
        | some t => simp [applyProgressTask]
      · simp only [step, if_pos hin, statusOf]
        rw [lookupT_setTask_ne _ _ _ _ (fun hh : id' = id => hid hh.symm)]
    · exact invAt_congr _ _ _ (by simp [step, hin]) ⟨hx, hifl, hstd, hnone⟩
  | finish id' r now =>
    by_cases hin : id' ∈ st.inflight
    · by_cases hid : id = id'
      · subst hid
        have h2 := hifl hin
        have hstarted : id ∈ st.started := by
          by_contra hns
          rcases hstd hns with h3 | h3 <;> rcases h2 with h2 | h2 <;> rw [h3] at h2 <;>
            simp at h2
        have hpost : statusOf (step st (.finish id r now)) id = some .completed ∨
            statusOf (step st (.finish id r now)) id = some .failed := by
          have hlook : ∃ t, lookupT st.tasks id = some t := by
            rcases h2 with h2 | h2 <;> exact (Option.map_eq_some'.1 h2).imp
              (fun t ht => ht.1)
          obtain ⟨t, ht⟩ := hlook
          simp only [step, if_pos hin, statusOf]
          rw [lookupT_setTask_self, ht]
          cases r with
          | ok res => exact Or.inl rfl
          | error m => exact Or.inr rfl
        have hnotex : id ∉ (step st (.finish id r now)).executors := by
          simp [step, if_pos hin, List.mem_filter]
        have hnotin : id ∉ (step st (.finish id r now)).inflight := by
          simp [step, if_pos hin, List.mem_filter]
        have hstd' : (step st (.finish id r now)).started = st.started := by
          simp [step, hin]
        refine ⟨?_, ?_, ?_, ?_⟩
        · intro hmem
          exact absurd hmem hnotex
        · intro hmem
          exact absurd hmem hnotin
        · intro hmem
          rw [hstd'] at hmem
          exact absurd hstarted hmem
        · intro hc
          rcases hpost with hp | hp <;> rw [hp] at hc <;> cases hc
      · refine invAt_of_equiv st _ id ?_ ?_ ?_ ?_ ⟨hx, hifl, hstd, hnone⟩
        · simp [step, hin, List.mem_filter, hid]
        · simp [step, hin, List.mem_filter, hid]
        · simp [step, hin]
        · simp only [step, if_pos hin, statusOf]
          rw [lookupT_setTask_ne _ _ _ _ (fun hh : id' = id => hid hh.symm)]
    · exact invAt_congr _ _ _ (by simp [step, hin]) ⟨hx, hifl, hstd, hnone⟩
  | cancel id' now =>
    by_cases hex : id' ∈ st.executors
    · cases hl : lookupT st.tasks id' with
      | none =>
        exact invAt_congr _ _ _ (by simp [step, cancelTask, hex, hl]) ⟨hx, hifl, hstd, hnone⟩
      | some t =>
        by_cases hid : id = id'
        · subst hid
          have hcanc : statusOf (step st (.cancel id now)) id = some .cancelled := by
            simp only [step, cancelTask, if_pos hex, hl, statusOf]
            rw [lookupT_setTask_self, hl]
            rfl
          have hstarted : id ∈ st.started := by
            by_contra hns
            have hrun := hx hex
            rcases hstd hns with h3 | h3 <;> rw [h3] at hrun <;> simp at hrun
          have hnotex : id ∉ (step st (.cancel id now)).executors := by
            simp [step, cancelTask, if_pos hex, hl, List.mem_filter]
          have hifl' : (step st (.cancel id now)).inflight = st.inflight := by
            simp [step, cancelTask, hex, hl]
          have hstd' : (step st (.cancel id now)).started = st.started := by
            simp [step, cancelTask, hex, hl]
          refine ⟨?_, ?_, ?_, ?_⟩
          · intro hmem
            exact absurd hmem hnotex
          · intro _
            exact Or.inr hcanc
          · intro hmem
            rw [hstd'] at hmem
            exact absurd hstarted hmem
          · intro hc
            rw [hcanc] at hc
            cases hc
        · refine invAt_of_equiv st _ id ?_ ?_ ?_ ?_ ⟨hx, hifl, hstd, hnone⟩
          · simp [step, cancelTask, hex, hl, List.mem_filter, hid]
          · simp [step, cancelTask, hex, hl]
          · simp [step, cancelTask, hex, hl]
          · simp only [step, cancelTask, if_pos hex, hl, statusOf]
            rw [lookupT_setTask_ne _ _ _ _ (fun hh : id' = id => hid hh.symm)]
    · exact invAt_congr _ _ _ (by simp [step, cancelTask, hex]) ⟨hx, hifl, hstd, hnone⟩

theorem changePairs_cons_cons (a b : TaskStatus) (l : List TaskStatus) :
    changePairs (a :: b :: l) =
      (if a ≠ b then [(a, b)] else []) ++ changePairs (b :: l) := rfl

/-- Along any trace, the status transitions a task actually takes (prefixed
with its status at the start state) stay within `actualPairs`, provided the
start state satisfies the invariant. -/
theorem seq_pairs : ∀ (tr : List Ev) (st : TMState) (id : Nat), InvAt st id →
    ∀ p ∈ changePairs ((statusOf st id).toList ++ statusSeq st tr id), p ∈ actualPairs := by
  intro tr
  induction tr with
  | nil =>
    intro st id _ p hp
    cases h : statusOf st id <;> simp [statusSeq, h, changePairs] at hp
  | cons e rest ih =>
    intro st id hInv p hp
    have hInv' := stepInvAt st e id hInv
    have htr := step_trans st e id hInv
    rw [statusSeq] at hp
    cases h1 : statusOf st id with
    | none =>
      cases h2 : statusOf (step st e) id with
      | none =>
        apply ih (step st e) id hInv' p
        rw [h2]
        rw [h1, h2] at hp
        simpa using hp
      | some b =>
        apply ih (step st e) id hInv' p
        rw [h2]
        rw [h1, h2] at hp
        simpa using hp
    | some a =>
      cases h2 : statusOf (step st e) id with
      | none =>
        exfalso
        rcases htr with h | ⟨hn, _⟩ | ⟨x, y, _, hy, _⟩
        · rw [h1, h2] at h
          cases h
        · rw [h1] at hn
          cases hn
        · rw [h2] at hy
          cases hy
      | some b =>
        rw [h1, h2] at hp
        simp only [Option.toList, List.singleton_append] at hp
        rw [changePairs_cons_cons] at hp
        rcases List.mem_append.1 hp with hp1 | hp2
        · by_cases hab : a = b
          · simp [hab] at hp1
          · simp only [ne_eq, hab, not_false_iff, if_true, List.mem_singleton] at hp1
            subst hp1
            rcases htr with h | ⟨hn, _⟩ | ⟨x, y, hx2, hy, hmem⟩
            · rw [h1, h2] at h
              injection h with h
              exact absurd h.symm hab
            · rw [h1] at hn
              cases hn
            · rw [h1] at hx2
              rw [h2] at hy
              injection hx2 with hx2
              injection hy with hy
              subst hx2
              subst hy
              exact hmem
        · apply ih (step st e) id hInv' p
          rw [h2]
          simpa using hp2

/-- C1 as stated is false: cancelling a running CLI-backed task and then
letting its in-flight `executeTask` call settle moves the status from
`cancelled` to `failed`, assigning the task two distinct terminal
statuses. -/
theorem lifecycle_c1_counterexample : ¬ClaimC1Prop := by
  intro h
  exact absurd
    (h [Ev.create 1 .claude "p" 0, Ev.execStartCLI 1, Ev.cancel 1 5,
        Ev.finish 1 (.error "Command failed with exit code null\n") 6] 1
      (.cancelled, .failed) (by decide))
    (by decide)

/-- C1 amended: along every trace of registry events, every status
transition follows `pending → running → {completed, failed, cancelled}`,
except that a task cancelled while its single `executeTask` call is still
in flight is subsequently overwritten to `completed` or `failed` when that
call settles; in particular those are the only transitions out of a
terminal status. -/
theorem lifecycle_c1_amended : ∀ (tr : List Ev) (id : Nat),
    ∀ p ∈ changePairs (statusSeq initTM tr id), p ∈ actualPairs := by
  intro tr id p hp
  have h0 : InvAt initTM id := by
    refine ⟨?_, ?_, ?_, ?_⟩ <;> intro h
    · exact absurd h (by simp [initTM])
    · exact absurd h (by simp [initTM])
    · exact Or.inl rfl
    · exact ⟨by simp [initTM], by simp [initTM], by simp [initTM]⟩
  apply seq_pairs tr initTM id h0 p
  simpa [statusOf, initTM, lookupT] using hp

/-- Witness for C1's amended statement: the trace that creates task 1 and
dispatches it takes only the transition `pending → running`, which is in
`actualPairs`. -/
theorem lifecycle_c1_amended_witness :
    (TaskStatus.pending, TaskStatus.running) ∈ actualPairs :=
  lifecycle_c1_amended [Ev.create 1 .claude "p" 0, Ev.execStartCLI 1] 1
    (.pending, .running) (by decide)

end MultiAgent
